import Mathlib

set_option maxRecDepth 4000

/- Formal model of the YouthSync attendance service.  The repository has two
   near-duplicate source files, src/src/main.rs (daily report, tracks
   present_count and absent_count, hard-fails the report on a malformed date)
   and src/src/main copy.rs (report tracking present_count only, key formatted
   MM/DD/YYYY, silently skips malformed dates).  The HTTP/SQL plumbing is
   external; the modelled core takes the list of fetched Attendance rows as
   input, exactly as the handlers do after fetch_all. -/

/-- One attendance row, as stored and as carried in API requests
(struct Attendance in both source files).  The i32 student_id is modelled as
Int; date and status are the raw strings from the database. -/
structure Attendance where
  student_id : Int
  date : String
  status : String
deriving DecidableEq

/-- A parsed calendar date: the fields of chrono NaiveDate that the handlers
read (year, month, day). -/
structure Date where
  year : Int
  month : Nat
  day : Nat
deriving DecidableEq

/-- Proleptic Gregorian leap-year rule, as used by chrono NaiveDate. -/
def isLeapYear (y : Int) : Bool :=
  y % 4 == 0 && (y % 100 != 0 || y % 400 == 0)

/-- Number of days in a month of a given year (chrono NaiveDate calendar). -/
def daysInMonth (y : Int) (m : Nat) : Nat :=
  if m = 2 then (if isLeapYear y then 29 else 28)
  else if m = 4 ∨ m = 6 ∨ m = 9 ∨ m = 11 then 30
  else 31

/-- Numeric value of a digit string, most significant digit first. -/
def digitsToNat (cs : List Char) : Nat :=
  cs.foldl (fun a c => a * 10 + (c.toNat - ('0').toNat)) 0

/-- Read at most two leading decimal digits, returning them and the rest
(chrono numeric field of maximum width 2, as for the m and d fields). -/
def takeDigitsUpTo2 : List Char → List Char × List Char
  | [] => ([], [])
  | c :: cs =>
    if c.isDigit then
      match cs with
      | c2 :: cs2 => if c2.isDigit then ([c, c2], cs2) else ([c], c2 :: cs2)
      | [] => ([c], [])
    else ([], c :: cs)

/-- Model of chrono NaiveDate::parse_from_str(s, "%Y-%m-%d") as called by both
get_report handlers: an optionally signed year of one or more digits, a
literal dash, a one- or two-digit month, a literal dash, a one- or two-digit
day, end of input; the numbers must form a valid proleptic Gregorian calendar
date (chrono's extreme-year bound is not modelled). -/
def parse_from_str (s : String) : Option Date :=
  let start : Bool × List Char :=
    match s.data with
    | c :: rest =>
      if c = '-' then (true, rest) else if c = '+' then (false, rest) else (false, s.data)
    | [] => (false, [])
  let yds := start.2.takeWhile Char.isDigit
  let afterY := start.2.dropWhile Char.isDigit
  if yds = [] then none
  else
    let year : Int := if start.1 then -(digitsToNat yds : Int) else (digitsToNat yds : Int)
    match afterY with
    | '-' :: t1 =>
      let md := takeDigitsUpTo2 t1
      if md.1 = [] then none
      else
        match md.2 with
        | '-' :: t2 =>
          let dd := takeDigitsUpTo2 t2
          if dd.1 = [] then none
          else if dd.2 = [] then
            let m := digitsToNat md.1
            let d := digitsToNat dd.1
            if 1 ≤ m ∧ m ≤ 12 ∧ 1 ≤ d ∧ d ≤ daysInMonth year m then
              some ⟨year, m, d⟩
            else none
          else none
        | _ => none
    | _ => none

/-- Character for a decimal digit value. -/
def digitChar (d : Nat) : Char := Char.ofNat (48 + d)

/-- Decimal digits of a number, most significant first, with structural fuel
(any fuel at least the number of digits gives the digits of n). -/
def natDigitsAux : Nat → Nat → List Char
  | 0, _ => []
  | fuel + 1, n =>
    if n < 10 then [digitChar n]
    else natDigitsAux fuel (n / 10) ++ [digitChar (n % 10)]

/-- Decimal rendering of a Nat (model of Rust Display for unsigned values). -/
def natToString (n : Nat) : String := ⟨natDigitsAux (n + 1) n⟩

/-- Decimal rendering of an Int (model of Rust Display for i32, as in
record.student_id.to_string() and the year field of format!). -/
def intToString (i : Int) : String :=
  if i < 0 then ⟨'-' :: natDigitsAux (i.natAbs + 1) i.natAbs⟩
  else natToString i.natAbs

/-- Zero-padded two-digit rendering, as the format specifier 02 produces for
the month and day fields. -/
def pad2 (n : Nat) : String :=
  if n < 10 then "0" ++ natToString n else natToString n

/-- The daily report key of src/src/main.rs:
format!("02-02-", date.month(), date.day(), date.year()) rendered as
MM-DD-YYYY. -/
def formatDaily (d : Date) : String :=
  pad2 d.month ++ "-" ++ pad2 d.day ++ "-" ++ intToString d.year

/-- The report key of src/src/main copy.rs: the date rendered MM/DD/YYYY
(the ISO-week key in that file is commented out). -/
def formatWeekly (d : Date) : String :=
  pad2 d.month ++ "/" ++ pad2 d.day ++ "/" ++ intToString d.year

/-- Aggregated attendance counts for one date key (struct DailyReport in
src/src/main.rs).  The i32 counters are modelled as Int. -/
structure DailyReport where
  date : String
  present_count : Int
  absent_count : Int
deriving DecidableEq

/-- Aggregated attendance count for one key (struct WeeklyReport in
src/src/main copy.rs). -/
structure WeeklyReport where
  week : String
  present_count : Int
deriving DecidableEq

namespace Daily

/-- One loop iteration of the main.rs report on an already-parsed record:
find the entry whose date equals the key and bump the counter matching the
status (unknown statuses bump nothing), or push a fresh entry at the end. -/
def insert (key status : String) : List DailyReport → List DailyReport
  | [] =>
    [⟨key, if status = "Present" then 1 else 0, if status = "Absent" then 1 else 0⟩]
  | r :: rest =>
    if r.date = key then
      (if status = "Present" then { r with present_count := r.present_count + 1 }
       else if status = "Absent" then { r with absent_count := r.absent_count + 1 }
       else r) :: rest
    else r :: insert key status rest

/-- The record loop of the main.rs get_report handler: on the first date that
fails to parse the whole report request is answered with an error response;
otherwise the record is folded into the accumulated daily counts. -/
def go (acc : List DailyReport) : List Attendance → Except String (List DailyReport)
  | [] => Except.ok acc
  | r :: rest =>
    match parse_from_str r.date with
    | none => Except.error ("Date parse error")
    | some d => go (insert (formatDaily d) r.status acc) rest

/-- Core of the GET /report handler of src/src/main.rs, acting on the rows
fetched from the store. -/
def get_report (records : List Attendance) : Except String (List DailyReport) :=
  go [] records

/-- The keys of a list of daily summaries, in order. -/
def keys (l : List DailyReport) : List String := l.map DailyReport.date

/-- Sum of present_count over a daily report. -/
def sumPresent (l : List DailyReport) : Int := (l.map DailyReport.present_count).sum

/-- Sum of absent_count over a daily report. -/
def sumAbsent (l : List DailyReport) : Int := (l.map DailyReport.absent_count).sum

/-- The daily keys of the records whose date parses, in input order. -/
def validKeys (rs : List Attendance) : List String :=
  rs.filterMap (fun r => (parse_from_str r.date).map formatDaily)

end Daily

namespace Weekly

/-- One loop iteration of the main copy.rs report on an already-parsed
record: find the entry for the key and bump present_count when the status is
Present, or push a fresh entry at the end. -/
def insert (key status : String) : List WeeklyReport → List WeeklyReport
  | [] => [⟨key, if status = "Present" then 1 else 0⟩]
  | e :: rest =>
    if e.week = key then
      (if status = "Present" then { e with present_count := e.present_count + 1 }
       else e) :: rest
    else e :: insert key status rest

/-- The record loop of the main copy.rs get_report handler: a record whose
date fails to parse is skipped silently; the rest are folded into the
accumulated counts. -/
def go (acc : List WeeklyReport) : List Attendance → List WeeklyReport
  | [] => acc
  | r :: rest =>
    match parse_from_str r.date with
    | none => go acc rest
    | some d => go (insert (formatWeekly d) r.status acc) rest

/-- Core of the GET /report handler of src/src/main copy.rs, acting on the
rows fetched from the store. -/
def get_report (records : List Attendance) : List WeeklyReport :=
  go [] records

/-- The keys of a list of weekly summaries, in order. -/
def keys (l : List WeeklyReport) : List String := l.map WeeklyReport.week

/-- Sum of present_count over a report. -/
def sumPresent (l : List WeeklyReport) : Int := (l.map WeeklyReport.present_count).sum

/-- The keys of the records whose date parses, in input order. -/
def validKeys (rs : List Attendance) : List String :=
  rs.filterMap (fun r => (parse_from_str r.date).map formatWeekly)

/-- Whether a summary entry is the one a record with a parse-valid date is
keyed to. -/
def keyed (e : WeeklyReport) (r : Attendance) : Bool :=
  match parse_from_str r.date with
  | some d => e.week == formatWeekly d
  | none => false

/-- Whether two records are counted in the same summary entry of the report
over rs: some output entry is keyed to both. -/
def inSameEntry (rs : List Attendance) (r1 r2 : Attendance) : Bool :=
  (get_report rs).any (fun e => keyed e r1 && keyed e r2)

end Weekly

/-- Record of a valid-date Present row (the records counted by
present_count, per the reports above). -/
def presentValid (r : Attendance) : Bool :=
  (parse_from_str r.date).isSome && (r.status == "Present")

/-- Record of a valid-date Absent row. -/
def absentValid (r : Attendance) : Bool :=
  (parse_from_str r.date).isSome && (r.status == "Absent")

/-- Append a key to a seen-list unless already present (the spec's
"one entry per distinct key, in first-seen order" on key lists). -/
def seenInsert (ks : List String) (k : String) : List String :=
  if k ∈ ks then ks else ks ++ [k]

/-- The distinct keys of a key list, each at its first occurrence, in order. -/
def firstSeenKeys (ks : List String) : List String := ks.foldl seenInsert []

/-- Whether the csv crate must quote a field: it contains the delimiter, the
quote character, or a record-terminator byte. -/
def csvNeedsQuote (cs : List Char) : Bool :=
  cs.any (fun c => c == ',' || c == '"' || c == '\n' || c == '\r')

/-- A field as the csv crate writes it: quoted with inner quotes doubled when
quoting is needed, verbatim otherwise. -/
def csvEscapeField (s : String) : List Char :=
  if csvNeedsQuote s.data then
    ('"' :: s.data.foldr (fun c acc => (if c == '"' then ['"', '"'] else [c]) ++ acc) []) ++ ['"']
  else s.data

/-- Model of wtr.write_record(fields) on a Writer over an in-memory buffer:
append the comma-joined escaped fields and a terminating newline. -/
def write_record (buf : List Char) (fields : List String) : List Char :=
  buf ++ (List.intercalate [','] (fields.map csvEscapeField) ++ ['\n'])

/-- Core of the GET /export handler (identical in both source files): write
the header record, then one record per fetched row, into an in-memory buffer
returned as the response body. -/
def export_csv (records : List Attendance) : List Char :=
  let header := write_record [] [("Student ID"), ("Date"), ("Status")]
  records.foldl
    (fun buf r => write_record buf [intToString r.student_id, r.date, r.status]) header

/-- The text of one record's row, without the terminating newline, for fields
the csv crate writes verbatim. -/
def csvRowChars (r : Attendance) : List Char :=
  (intToString r.student_id).data ++ ',' :: r.date.data ++ ',' :: r.status.data

/-- Split a character buffer at newline characters; a final newline yields a
trailing empty chunk. -/
def splitLines : List Char → List (List Char)
  | [] => [[]]
  | c :: cs =>
    match splitLines cs with
    | [] => [[]]
    | l :: ls => if c = '\n' then [] :: l :: ls else (c :: l) :: ls

/-- Days from 1970-01-01 of a proleptic Gregorian date (standard
days-from-civil computation, with floor division so negative years are
handled uniformly). -/
def daysFromCivil (y : Int) (m d : Nat) : Int :=
  let y2 : Int := if m ≤ 2 then y - 1 else y
  let era : Int := y2.fdiv 400
  let yoe : Int := y2 - era * 400
  let mp : Nat := if 2 < m then m - 3 else m + 9
  let doy : Nat := (153 * mp + 2) / 5 + d - 1
  let doe : Int := yoe * 365 + yoe.fdiv 4 - yoe.fdiv 100 + (doy : Int)
  era * 146097 + doe - 719468

/-- ISO weekday number of a date: Monday is 1 through Sunday 7
(1970-01-01 was a Thursday). -/
def isoWeekday (y : Int) (m d : Nat) : Nat :=
  ((daysFromCivil y m d + 3).emod 7).toNat + 1

/-- Ordinal day of the year of a date (January 1st is 1). -/
def dayOfYear (y : Int) (m d : Nat) : Nat :=
  (List.range (m - 1)).foldl (fun a i => a + daysInMonth y (i + 1)) d

/-- Number of ISO weeks in the ISO week-based year y (52 or 53). -/
def weeksInIsoYear (y : Int) : Nat :=
  if (y + y.fdiv 4 - y.fdiv 100 + y.fdiv 400).emod 7 = 4
      ∨ ((y - 1) + (y - 1).fdiv 4 - (y - 1).fdiv 100 + (y - 1).fdiv 400).emod 7 = 3
  then 53 else 52

/-- Modelled from the spec: the ISO 8601 week identifier (week-based year,
week number) of a calendar date.  This renders the spec's weekly grouping
criterion "same ISO week number and ISO week-year"; the corresponding
iso_week code in src/src/main copy.rs is commented out, so it is modelled
from the spec's words rather than from live code. -/
def isoWeekPair (dt : Date) : Int × Nat :=
  let w : Int :=
    ((dayOfYear dt.year dt.month dt.day : Int)
      - (isoWeekday dt.year dt.month dt.day : Int) + 10).fdiv 7
  if w < 1 then (dt.year - 1, weeksInIsoYear (dt.year - 1))
  else if (weeksInIsoYear dt.year : Int) < w then (dt.year + 1, 1)
  else (dt.year, w.toNat)

/-- The three-record scenario of the spec's end-to-end test. -/
def exampleRecords : List Attendance :=
  [⟨1, "2024-01-10", "Present"⟩, ⟨2, "2024-01-10", "Absent"⟩, ⟨1, "2024-01-17", "Present"⟩]

/-- The same scenario with different student identifiers. -/
def exampleRecordsOtherIds : List Attendance :=
  [⟨41, "2024-01-10", "Present"⟩, ⟨41, "2024-01-10", "Absent"⟩, ⟨77, "2024-01-17", "Present"⟩]

/-- A record list containing a malformed date. -/
def badDateRecords : List Attendance :=
  [⟨1, "2024-01-10", "Present"⟩, ⟨2, "2024-13-40", "Present"⟩]

/-- Two same-ISO-week records on consecutive days (2024-01-10 was a
Wednesday, 2024-01-11 a Thursday; both are in ISO week 2 of 2024). -/
def cexR1 : Attendance := ⟨1, "2024-01-10", "Present"⟩

def cexR2 : Attendance := ⟨2, "2024-01-11", "Present"⟩

def cexRecords : List Attendance := [cexR1, cexR2]

/-- A valid-date record with a status outside Present and Absent. -/
def lateRecord : Attendance := ⟨3, "2024-01-10", "Late"⟩

example : parse_from_str ("2024-01-10") = some ⟨2024, 1, 10⟩ := by decide
example : parse_from_str ("2024-13-40") = none := by decide
example : parse_from_str ("2023-02-29") = none := by decide
example : parse_from_str ("2024-02-29") = some ⟨2024, 2, 29⟩ := by decide
example : parse_from_str ("2024-01-10x") = none := by decide
example : formatDaily ⟨2024, 1, 10⟩ = "01-10-2024" := by decide
example : formatWeekly ⟨2024, 1, 10⟩ = "01/10/2024" := by decide
example : isoWeekPair ⟨2024, 1, 10⟩ = (2024, 2) := by decide
example : isoWeekPair ⟨2024, 1, 11⟩ = (2024, 2) := by decide
example : isoWeekPair ⟨2024, 1, 7⟩ = (2024, 1) := by decide
example : isoWeekPair ⟨2023, 1, 1⟩ = (2022, 52) := by decide
example : isoWeekPair ⟨2021, 1, 1⟩ = (2020, 53) := by decide
example :
    Daily.get_report exampleRecords
      = Except.ok [⟨"01-10-2024", 1, 1⟩, ⟨"01-17-2024", 1, 0⟩] := by rfl
example :
    Weekly.get_report cexRecords = [⟨"01/10/2024", 1⟩, ⟨"01/11/2024", 1⟩] := by decide
example : splitLines (export_csv exampleRecords) =
    [("Student ID,Date,Status").data, ("1,2024-01-10,Present").data,
     ("2,2024-01-10,Absent").data, ("1,2024-01-17,Present").data, []] := by decide

/- Helper lemmas: the daily aggregation loop. -/

theorem Daily.bumped_date (r : DailyReport) (s : String) :
    (if s = "Present" then { r with present_count := r.present_count + 1 }
     else if s = "Absent" then { r with absent_count := r.absent_count + 1 }
     else r).date = r.date := by
  split
  · rfl
  · split <;> rfl

theorem Daily.bumped_present (r : DailyReport) (s : String) :
    (if s = "Present" then { r with present_count := r.present_count + 1 }
     else if s = "Absent" then { r with absent_count := r.absent_count + 1 }
     else r).present_count = r.present_count + (if s = "Present" then 1 else 0) := by
  rcases eq_or_ne s ("Present") with hp | hp
  · simp [hp]
  · rcases eq_or_ne s ("Absent") with ha | ha
    · simp [hp, ha]
    · simp [hp, ha]

theorem Daily.bumped_absent (r : DailyReport) (s : String) :
    (if s = "Present" then { r with present_count := r.present_count + 1 }
     else if s = "Absent" then { r with absent_count := r.absent_count + 1 }
     else r).absent_count = r.absent_count + (if s = "Absent" then 1 else 0) := by
  rcases eq_or_ne s ("Present") with hp | hp
  · simp [hp]
  · rcases eq_or_ne s ("Absent") with ha | ha
    · simp [hp, ha]
    · simp [hp, ha]

theorem Daily.insert_keys (k s : String) (acc : List DailyReport) :
    Daily.keys (Daily.insert k s acc) = seenInsert (Daily.keys acc) k := by
  induction acc with
  | nil => simp [Daily.insert, Daily.keys, seenInsert]
  | cons r rest ih =>
    by_cases h : r.date = k
    · simp only [Daily.insert, if_pos h, Daily.keys, List.map_cons, seenInsert]
      rw [Daily.bumped_date, h]
      simp
    · simp only [Daily.insert, if_neg h, Daily.keys, List.map_cons, seenInsert] at ih ⊢
      rw [ih]
      have hne : ¬ k = r.date := fun hk => h hk.symm
      by_cases hm : k ∈ List.map DailyReport.date rest
      · simp [hm, hne]
      · simp [hm, hne]

theorem Daily.insert_sumPresent (k s : String) (acc : List DailyReport) :
    Daily.sumPresent (Daily.insert k s acc)
      = Daily.sumPresent acc + (if s = "Present" then 1 else 0) := by
  induction acc with
  | nil => simp [Daily.insert, Daily.sumPresent]
  | cons r rest ih =>
    by_cases h : r.date = k
    · simp only [Daily.insert, if_pos h, Daily.sumPresent, List.map_cons, List.sum_cons]
      rw [Daily.bumped_present]
      omega
    · simp only [Daily.insert, if_neg h, Daily.sumPresent, List.map_cons, List.sum_cons] at ih ⊢
      rw [ih]
      omega

theorem Daily.insert_sumAbsent (k s : String) (acc : List DailyReport) :
    Daily.sumAbsent (Daily.insert k s acc)
      = Daily.sumAbsent acc + (if s = "Absent" then 1 else 0) := by
  induction acc with
  | nil =>
    rcases eq_or_ne s ("Present") with hp | hp
    · have hna : ¬ s = "Absent" := by
        rw [hp]
        simp
      simp [Daily.insert, Daily.sumAbsent, hna]
    · simp [Daily.insert, Daily.sumAbsent, hp]
  | cons r rest ih =>
    by_cases h : r.date = k
    · simp only [Daily.insert, if_pos h, Daily.sumAbsent, List.map_cons, List.sum_cons]
      rw [Daily.bumped_absent]
      omega
    · simp only [Daily.insert, if_neg h, Daily.sumAbsent, List.map_cons, List.sum_cons] at ih ⊢
      rw [ih]
      omega

theorem Daily.go_ok_sumPresent (rs : List Attendance) :
    ∀ (acc out : List DailyReport), Daily.go acc rs = Except.ok out →
      Daily.sumPresent out = Daily.sumPresent acc + (rs.countP presentValid : Int) := by
  induction rs with
  | nil =>
    intro acc out h
    simp only [Daily.go, Except.ok.injEq] at h
    simp [h]
  | cons r rest ih =>
    intro acc out h
    simp only [Daily.go] at h
    cases hp : parse_from_str r.date with
    | none =>
      rw [hp] at h
      simp at h
    | some d =>
      rw [hp] at h
      rw [ih _ _ h, Daily.insert_sumPresent, List.countP_cons]
      simp only [presentValid, hp, Option.isSome_some, Bool.true_and]
      by_cases hs : r.status = "Present"
      · simp [hs]
        omega
      · simp [hs]

theorem Daily.go_ok_sumAbsent (rs : List Attendance) :
    ∀ (acc out : List DailyReport), Daily.go acc rs = Except.ok out →
      Daily.sumAbsent out = Daily.sumAbsent acc + (rs.countP absentValid : Int) := by
  induction rs with
  | nil =>
    intro acc out h
    simp only [Daily.go, Except.ok.injEq] at h
    simp [h]
  | cons r rest ih =>
    intro acc out h
    simp only [Daily.go] at h
    cases hp : parse_from_str r.date with
    | none =>
      rw [hp] at h
      simp at h
    | some d =>
      rw [hp] at h
      rw [ih _ _ h, Daily.insert_sumAbsent, List.countP_cons]
      simp only [absentValid, hp, Option.isSome_some, Bool.true_and]
      by_cases hs : r.status = "Absent"
      · simp [hs]
        omega
      · simp [hs]

theorem Daily.go_ok_keys (rs : List Attendance) :
    ∀ (acc out : List DailyReport), Daily.go acc rs = Except.ok out →
      Daily.keys out = List.foldl seenInsert (Daily.keys acc) (Daily.validKeys rs) := by
  induction rs with
  | nil =>
    intro acc out h
    simp only [Daily.go, Except.ok.injEq] at h
    simp [h, Daily.validKeys]
  | cons r rest ih =>
    intro acc out h
    simp only [Daily.go] at h
    cases hp : parse_from_str r.date with
    | none =>
      rw [hp] at h
      simp at h
    | some d =>
      rw [hp] at h
      rw [ih _ _ h]
      simp [Daily.validKeys, hp, Daily.insert_keys]

theorem Daily.go_append (ys xs : List Attendance) :
    ∀ acc : List DailyReport,
      Daily.go acc (xs ++ ys)
        = match Daily.go acc xs with
          | Except.ok a => Daily.go a ys
          | Except.error e => Except.error e := by
  induction xs with
  | nil =>
    intro acc
    simp [Daily.go]
  | cons r rest ih =>
    intro acc
    simp only [List.cons_append, Daily.go]
    cases hp : parse_from_str r.date with
    | none => simp
    | some d => exact ih _

theorem Daily.go_error_of_bad (rs : List Attendance) :
    ∀ acc : List DailyReport, (∃ r ∈ rs, parse_from_str r.date = none) →
      ∃ e, Daily.go acc rs = Except.error e := by
  induction rs with
  | nil =>
    intro acc h
    simp at h
  | cons r rest ih =>
    intro acc h
    simp only [Daily.go]
    cases hp : parse_from_str r.date with
    | none => exact ⟨("Date parse error"), rfl⟩
    | some d =>
      apply ih
      rcases h with ⟨r0, hmem, hbad⟩
      rcases List.mem_cons.mp hmem with h0 | h0
      · rw [h0] at hbad
        rw [hbad] at hp
        cases hp
      · exact ⟨r0, h0, hbad⟩

theorem Daily.go_ok_of_valid (rs : List Attendance) :
    ∀ acc : List DailyReport, (∀ r ∈ rs, (parse_from_str r.date).isSome = true) →
      ∃ out, Daily.go acc rs = Except.ok out := by
  induction rs with
  | nil =>
    intro acc _
    exact ⟨acc, rfl⟩
  | cons r rest ih =>
    intro acc h
    have hr := h r (List.mem_cons_self r rest)
    simp only [Daily.go]
    cases hp : parse_from_str r.date with
    | none =>
      rw [hp] at hr
      simp at hr
    | some d =>
      exact ih _ (fun r0 h0 => h r0 (List.mem_cons_of_mem r h0))

/- Helper lemmas: the weekly-variant aggregation loop. -/

theorem Weekly.bumped_week (e : WeeklyReport) (s : String) :
    (if s = "Present" then { e with present_count := e.present_count + 1 }
     else e).week = e.week := by
  split <;> rfl

theorem Weekly.wbumped_present (e : WeeklyReport) (s : String) :
    (if s = "Present" then { e with present_count := e.present_count + 1 }
     else e).present_count = e.present_count + (if s = "Present" then 1 else 0) := by
  rcases eq_or_ne s ("Present") with hp | hp
  · simp [hp]
  · simp [hp]

theorem Weekly.winsert_keys (k s : String) (acc : List WeeklyReport) :
    Weekly.keys (Weekly.insert k s acc) = seenInsert (Weekly.keys acc) k := by
  induction acc with
  | nil => simp [Weekly.insert, Weekly.keys, seenInsert]
  | cons e rest ih =>
    by_cases h : e.week = k
    · simp only [Weekly.insert, if_pos h, Weekly.keys, List.map_cons, seenInsert]
      rw [Weekly.bumped_week, h]
      simp
    · simp only [Weekly.insert, if_neg h, Weekly.keys, List.map_cons, seenInsert] at ih ⊢
      rw [ih]
      have hne : ¬ k = e.week := fun hk => h hk.symm
      by_cases hm : k ∈ List.map WeeklyReport.week rest
      · simp [hm, hne]
      · simp [hm, hne]

theorem Weekly.winsert_sumPresent (k s : String) (acc : List WeeklyReport) :
    Weekly.sumPresent (Weekly.insert k s acc)
      = Weekly.sumPresent acc + (if s = "Present" then 1 else 0) := by
  induction acc with
  | nil => simp [Weekly.insert, Weekly.sumPresent]
  | cons e rest ih =>
    by_cases h : e.week = k
    · simp only [Weekly.insert, if_pos h, Weekly.sumPresent, List.map_cons, List.sum_cons]
      rw [Weekly.wbumped_present]
      omega
    · simp only [Weekly.insert, if_neg h, Weekly.sumPresent, List.map_cons, List.sum_cons] at ih ⊢
      rw [ih]
      omega

theorem Weekly.go_sumPresent (rs : List Attendance) :
    ∀ acc : List WeeklyReport,
      Weekly.sumPresent (Weekly.go acc rs)
        = Weekly.sumPresent acc + (rs.countP presentValid : Int) := by
  induction rs with
  | nil =>
    intro acc
    simp [Weekly.go]
  | cons r rest ih =>
    intro acc
    simp only [Weekly.go]
    cases hp : parse_from_str r.date with
    | none =>
      rw [ih, List.countP_cons]
      simp [presentValid, hp]
    | some d =>
      rw [ih, Weekly.winsert_sumPresent, List.countP_cons]
      simp only [presentValid, hp, Option.isSome_some, Bool.true_and]
      by_cases hs : r.status = "Present"
      · simp [hs]
        omega
      · simp [hs]

theorem Weekly.go_keys (rs : List Attendance) :
    ∀ acc : List WeeklyReport,
      Weekly.keys (Weekly.go acc rs)
        = List.foldl seenInsert (Weekly.keys acc) (Weekly.validKeys rs) := by
  induction rs with
  | nil =>
    intro acc
    simp [Weekly.go, Weekly.validKeys]
  | cons r rest ih =>
    intro acc
    simp only [Weekly.go]
    cases hp : parse_from_str r.date with
    | none =>
      rw [ih]
      simp [Weekly.validKeys, hp]
    | some d =>
      rw [ih]
      simp [Weekly.validKeys, hp, Weekly.winsert_keys]

theorem Weekly.wgo_append (ys xs : List Attendance) :
    ∀ acc : List WeeklyReport,
      Weekly.go acc (xs ++ ys) = Weekly.go (Weekly.go acc xs) ys := by
  induction xs with
  | nil =>
    intro acc
    simp [Weekly.go]
  | cons r rest ih =>
    intro acc
    simp only [List.cons_append, Weekly.go]
    cases hp : parse_from_str r.date with
    | none => exact ih _
    | some d => exact ih _

theorem Weekly.go_filter_valid (rs : List Attendance) :
    ∀ acc : List WeeklyReport,
      Weekly.go acc (rs.filter (fun r => (parse_from_str r.date).isSome))
        = Weekly.go acc rs := by
  induction rs with
  | nil =>
    intro acc
    rfl
  | cons r rest ih =>
    intro acc
    cases hp : parse_from_str r.date with
    | none =>
      have : (parse_from_str r.date).isSome = false := by
        rw [hp]
        rfl
      rw [List.filter_cons_of_neg (by simp [this])]
      simp only [Weekly.go, hp]
      exact ih _
    | some d =>
      have : (parse_from_str r.date).isSome = true := by
        rw [hp]
        rfl
      rw [List.filter_cons_of_pos (by simp [this])]
      simp only [Weekly.go, hp]
      exact ih _

/- Helper lemmas: first-seen key lists. -/

theorem seenInsert_nodup (ks : List String) (k : String) (h : ks.Nodup) :
    (seenInsert ks k).Nodup := by
  by_cases hm : k ∈ ks
  · simpa [seenInsert, hm] using h
  · simp [seenInsert, hm, List.nodup_append, h]

theorem foldl_seenInsert_nodup (ks : List String) :
    ∀ acc : List String, acc.Nodup → (List.foldl seenInsert acc ks).Nodup := by
  induction ks with
  | nil =>
    intro acc h
    exact h
  | cons k rest ih =>
    intro acc h
    exact ih _ (seenInsert_nodup acc k h)

theorem mem_foldl_seenInsert (k : String) (ks : List String) :
    ∀ acc : List String,
      (k ∈ List.foldl seenInsert acc ks ↔ k ∈ acc ∨ k ∈ ks) := by
  induction ks with
  | nil =>
    intro acc
    simp
  | cons k0 rest ih =>
    intro acc
    simp only [List.foldl_cons, ih, List.mem_cons]
    constructor
    · intro h
      rcases h with h | h
      · by_cases hm : k0 ∈ acc
        · simp [seenInsert, hm] at h
          exact Or.inl h
        · simp [seenInsert, hm] at h
          rcases h with h | h
          · exact Or.inl h
          · exact Or.inr (Or.inl h)
      · exact Or.inr (Or.inr h)
    · intro h
      rcases h with h | h | h
      · left
        by_cases hm : k0 ∈ acc <;> simp [seenInsert, hm, h]
      · left
        by_cases hm : k0 ∈ acc
        · simp [seenInsert, hm, h]
        · simp [seenInsert, hm, h]
      · exact Or.inr h

/- Helper lemmas: records with an unknown status. -/

theorem Daily.insert_unknown (k s : String) (hp : ¬ s = "Present") (ha : ¬ s = "Absent")
    (acc : List DailyReport) :
    Daily.insert k s acc
      = if k ∈ Daily.keys acc then acc else acc ++ [⟨k, 0, 0⟩] := by
  induction acc with
  | nil => simp [Daily.insert, Daily.keys, hp, ha]
  | cons r rest ih =>
    by_cases h : r.date = k
    · simp [Daily.insert, h, Daily.keys, hp, ha]
    · have hne : ¬ k = r.date := fun hk => h hk.symm
      simp only [Daily.insert, if_neg h, ih, Daily.keys, List.map_cons, List.mem_cons, hne,
        false_or]
      split
      · rename_i hx
        simp [hx]
      · rename_i hx
        simp [hx]

theorem Weekly.winsert_unknown (k s : String) (hp : ¬ s = "Present")
    (acc : List WeeklyReport) :
    Weekly.insert k s acc
      = if k ∈ Weekly.keys acc then acc else acc ++ [⟨k, 0⟩] := by
  induction acc with
  | nil => simp [Weekly.insert, Weekly.keys, hp]
  | cons e rest ih =>
    by_cases h : e.week = k
    · simp [Weekly.insert, h, Weekly.keys, hp]
    · have hne : ¬ k = e.week := fun hk => h hk.symm
      simp only [Weekly.insert, if_neg h, ih, Weekly.keys, List.map_cons, List.mem_cons, hne,
        false_or]
      split
      · rename_i hx
        simp [hx]
      · rename_i hx
        simp [hx]

/- Helper lemmas: the aggregation reads only the date and status fields. -/

theorem Daily.go_obs (rs1 : List Attendance) :
    ∀ (rs2 : List Attendance) (acc : List DailyReport),
      rs1.map (fun r => (r.date, r.status)) = rs2.map (fun r => (r.date, r.status)) →
      Daily.go acc rs1 = Daily.go acc rs2 := by
  induction rs1 with
  | nil =>
    intro rs2 acc h
    cases rs2 with
    | nil => rfl
    | cons r2 rest2 => simp at h
  | cons r rest ih =>
    intro rs2 acc h
    cases rs2 with
    | nil => simp at h
    | cons r2 rest2 =>
      simp only [List.map_cons, List.cons.injEq, Prod.mk.injEq] at h
      obtain ⟨⟨hdte, hst⟩, htl⟩ := h
      simp only [Daily.go, hdte, hst]
      cases hp : parse_from_str r2.date with
      | none => rfl
      | some d => exact ih rest2 _ htl

theorem Weekly.wgo_obs (rs1 : List Attendance) :
    ∀ (rs2 : List Attendance) (acc : List WeeklyReport),
      rs1.map (fun r => (r.date, r.status)) = rs2.map (fun r => (r.date, r.status)) →
      Weekly.go acc rs1 = Weekly.go acc rs2 := by
  induction rs1 with
  | nil =>
    intro rs2 acc h
    cases rs2 with
    | nil => rfl
    | cons r2 rest2 => simp at h
  | cons r rest ih =>
    intro rs2 acc h
    cases rs2 with
    | nil => simp at h
    | cons r2 rest2 =>
      simp only [List.map_cons, List.cons.injEq, Prod.mk.injEq] at h
      obtain ⟨⟨hdte, hst⟩, htl⟩ := h
      simp only [Weekly.go, hdte, hst]
      cases hp : parse_from_str r2.date with
      | none => exact ih rest2 _ htl
      | some d => exact ih rest2 _ htl

/- Helper lemmas: every valid record has its key in the weekly report. -/

theorem Weekly.key_mem_report (rs : List Attendance) (r : Attendance) (d : Date)
    (hmem : r ∈ rs) (hp : parse_from_str r.date = some d) :
    formatWeekly d ∈ Weekly.keys (Weekly.get_report rs) := by
  have hk : Weekly.keys (Weekly.get_report rs)
      = List.foldl seenInsert (Weekly.keys []) (Weekly.validKeys rs) :=
    Weekly.go_keys rs []
  rw [hk, mem_foldl_seenInsert]
  right
  simp only [Weekly.validKeys, List.mem_filterMap]
  exact ⟨r, hmem, by rw [hp]; rfl⟩

/- Helper lemmas: CSV export. -/

theorem write_record_eq (buf : List Char) (fields : List String) :
    write_record buf fields = buf ++ write_record [] fields := by
  simp [write_record]

theorem export_csv_join (rs : List Attendance) :
    export_csv rs
      = write_record [] [("Student ID"), ("Date"), ("Status")]
        ++ (rs.map
            (fun r => write_record [] [intToString r.student_id, r.date, r.status])).join := by
  suffices h : ∀ (rs : List Attendance) (buf : List Char),
      rs.foldl (fun b r => write_record b [intToString r.student_id, r.date, r.status]) buf
        = buf ++ (rs.map
            (fun r => write_record [] [intToString r.student_id, r.date, r.status])).join by
    exact h rs _
  intro rs
  induction rs with
  | nil =>
    intro buf
    simp
  | cons r rest ih =>
    intro buf
    simp only [List.foldl_cons, List.map_cons, List.join_cons, ih]
    rw [write_record_eq]
    simp

theorem splitLines_ne_nil (cs : List Char) : splitLines cs ≠ [] := by
  cases cs with
  | nil => simp [splitLines]
  | cons c rest =>
    simp only [splitLines]
    cases h : splitLines rest with
    | nil => simp
    | cons l ls =>
      by_cases hc : c = '\n' <;> simp [hc]

theorem splitLines_append (xs ys : List Char) (h : ('\n') ∉ xs) :
    splitLines (xs ++ ('\n') :: ys) = xs :: splitLines ys := by
  induction xs with
  | nil =>
    simp only [List.nil_append, splitLines]
    cases h2 : splitLines ys with
    | nil => exact absurd h2 (splitLines_ne_nil ys)
    | cons l ls => simp
  | cons c rest ih =>
    have hc : ¬ c = '\n' := fun hc => h (by simp [hc])
    have hrest : ('\n') ∉ rest := fun hr => h (List.mem_cons_of_mem c hr)
    simp only [List.cons_append, splitLines, List.append_eq]
    rw [ih hrest]
    simp [hc]

theorem splitLines_terminated (chunks : List (List Char))
    (h : ∀ c0 ∈ chunks, ('\n') ∉ c0) :
    splitLines ((chunks.map (fun c0 => c0 ++ [('\n')])).join) = chunks ++ [[]] := by
  induction chunks with
  | nil => simp [splitLines]
  | cons c0 rest ih =>
    have hc : ('\n') ∉ c0 := h c0 (List.mem_cons_self c0 rest)
    have hrest : ∀ c1 ∈ rest, ('\n') ∉ c1 := fun c1 h1 => h c1 (List.mem_cons_of_mem c0 h1)
    simp only [List.map_cons, List.join_cons, List.append_assoc, List.singleton_append]
    rw [splitLines_append _ _ hc, ih hrest]
    simp

theorem splitLines_length (cs : List Char) :
    (splitLines cs).length = cs.count ('\n') + 1 := by
  induction cs with
  | nil => simp [splitLines]
  | cons c rest ih =>
    simp only [splitLines]
    cases h : splitLines rest with
    | nil => exact absurd h (splitLines_ne_nil rest)
    | cons l ls =>
      rw [h] at ih
      by_cases hc : c = '\n'
      · simp [hc, List.count_cons] at ih ⊢
        omega
      · have : ¬ ('\n') = c := fun hx => hc hx.symm
        simp [hc, List.count_cons, this] at ih ⊢
        omega

theorem csvEscapeField_safe (s : String) (h : csvNeedsQuote s.data = false) :
    csvEscapeField s = s.data := by
  simp [csvEscapeField, h]

theorem natDigitsAux_mem (fuel : Nat) :
    ∀ (n : Nat) (c : Char), c ∈ natDigitsAux fuel n → ∃ d, d < 10 ∧ c = digitChar d := by
  induction fuel with
  | zero =>
    intro n c hc
    simp [natDigitsAux] at hc
  | succ fuel ih =>
    intro n c hc
    simp only [natDigitsAux] at hc
    by_cases hn : n < 10
    · simp [hn] at hc
      exact ⟨n, hn, hc⟩
    · simp [hn] at hc
      rcases hc with hc | hc
      · exact ih _ _ hc
      · exact ⟨n % 10, Nat.mod_lt n (by omega), hc⟩

theorem digitChar_safe :
    ∀ d, d < 10 →
      ((digitChar d == ',') || (digitChar d == '"')
        || (digitChar d == '\n') || (digitChar d == '\r')) = false := by
  decide

theorem intToString_safe (i : Int) : csvNeedsQuote (intToString i).data = false := by
  have hdigits : ∀ c ∈ natDigitsAux (i.natAbs + 1) i.natAbs,
      ((c == ',') || (c == '"') || (c == '\n') || (c == '\r')) = false := by
    intro c hc
    obtain ⟨d, hd, rfl⟩ := natDigitsAux_mem _ _ _ hc
    exact digitChar_safe d hd
  simp only [intToString]
  by_cases hneg : i < 0
  · simp only [if_pos hneg, csvNeedsQuote]
    rw [List.any_eq_false]
    intro c hc
    rcases List.mem_cons.mp hc with hc | hc
    · rw [hc]
      decide
    · simp [hdigits c hc]
  · simp only [if_neg hneg, csvNeedsQuote, natToString]
    rw [List.any_eq_false]
    intro c hc
    simp [hdigits c hc]

theorem safe_no_newline (cs : List Char) (h : csvNeedsQuote cs = false) : ('\n') ∉ cs := by
  intro hmem
  simp only [csvNeedsQuote, List.any_eq_false] at h
  have := h _ hmem
  simp at this

theorem write_record_row (r : Attendance)
    (hd : csvNeedsQuote r.date.data = false) (hs : csvNeedsQuote r.status.data = false) :
    write_record [] [intToString r.student_id, r.date, r.status]
      = csvRowChars r ++ [('\n')] := by
  simp only [write_record, List.nil_append, List.map_cons, List.map_nil,
    csvEscapeField_safe _ (intToString_safe r.student_id),
    csvEscapeField_safe _ hd, csvEscapeField_safe _ hs]
  simp [List.intercalate, List.intersperse, csvRowChars]

theorem csvRowChars_no_newline (r : Attendance)
    (hd : csvNeedsQuote r.date.data = false) (hs : csvNeedsQuote r.status.data = false) :
    ('\n') ∉ csvRowChars r := by
  intro hmem
  have h1 := safe_no_newline _ (intToString_safe r.student_id)
  have h2 := safe_no_newline _ hd
  have h3 := safe_no_newline _ hs
  have hcomma : ¬ (('\n') = ',') := by decide
  simp only [csvRowChars, List.mem_append, List.mem_cons] at hmem
  simp [h1, h2, h3, hcomma] at hmem

/- Claim theorems. -/

/-- C1: for every input sequence of attendance records, the sum of
present_count over the summaries the report aggregation produces equals the
number of input records with status Present whose date string parses as a
valid YYYY-MM-DD calendar date: unconditionally for the main copy.rs variant,
and for the main.rs variant whenever it produces summaries at all; the
main.rs variant likewise has the sum of absent_count equal to the number of
parse-successful Absent records. -/
theorem C1_count_sums (rs : List Attendance) :
    Weekly.sumPresent (Weekly.get_report rs) = (rs.countP presentValid : Int)
    ∧ ∀ out, Daily.get_report rs = Except.ok out →
        Daily.sumPresent out = (rs.countP presentValid : Int)
        ∧ Daily.sumAbsent out = (rs.countP absentValid : Int) := by
  refine ⟨?_, ?_⟩
  · have h := Weekly.go_sumPresent rs []
    have hz : Weekly.sumPresent [] = 0 := rfl
    rw [hz, zero_add] at h
    exact h
  · intro out h
    refine ⟨?_, ?_⟩
    · have h1 := Daily.go_ok_sumPresent rs [] out h
      have hz : Daily.sumPresent [] = 0 := rfl
      rw [hz, zero_add] at h1
      exact h1
    · have h1 := Daily.go_ok_sumAbsent rs [] out h
      have hz : Daily.sumAbsent [] = 0 := rfl
      rw [hz, zero_add] at h1
      exact h1

/-- Witness for C1 at the spec's three-record scenario. -/
theorem C1_count_sums_witness :
    Weekly.sumPresent (Weekly.get_report exampleRecords)
        = (exampleRecords.countP presentValid : Int)
    ∧ Daily.sumPresent [⟨"01-10-2024", 1, 1⟩, ⟨"01-17-2024", 1, 0⟩]
        = (exampleRecords.countP presentValid : Int)
    ∧ Daily.sumAbsent [⟨"01-10-2024", 1, 1⟩, ⟨"01-17-2024", 1, 0⟩]
        = (exampleRecords.countP absentValid : Int) := by
  have h := C1_count_sums exampleRecords
  have h2 := h.2 [⟨("01-10-2024"), 1, 1⟩, ⟨("01-17-2024"), 1, 0⟩] rfl
  exact ⟨h.1, h2.1, h2.2⟩

/-- C2: both report variants produce exactly one summary entry per distinct
period key among the parse-successful records, no two output entries share a
key, and the entries appear in the order each key is first encountered in the
input (for the main.rs variant, whenever it produces summaries at all). -/
theorem C2_distinct_keys_first_seen (rs : List Attendance) :
    (Weekly.keys (Weekly.get_report rs) = firstSeenKeys (Weekly.validKeys rs)
      ∧ (Weekly.keys (Weekly.get_report rs)).Nodup)
    ∧ ∀ out, Daily.get_report rs = Except.ok out →
        (Daily.keys out = firstSeenKeys (Daily.validKeys rs)
          ∧ (Daily.keys out).Nodup) := by
  constructor
  · have hk := Weekly.go_keys rs []
    have hz : Weekly.keys ([] : List WeeklyReport) = [] := rfl
    rw [hz] at hk
    have hn : (Weekly.keys (Weekly.go [] rs)).Nodup := by
      rw [hk]
      exact foldl_seenInsert_nodup _ _ List.nodup_nil
    exact ⟨hk, hn⟩
  · intro out h
    have hk := Daily.go_ok_keys rs [] out h
    have hz : Daily.keys ([] : List DailyReport) = [] := rfl
    rw [hz] at hk
    have hn : (Daily.keys out).Nodup := by
      rw [hk]
      exact foldl_seenInsert_nodup _ _ List.nodup_nil
    exact ⟨hk, hn⟩

/-- Witness for C2 at the spec's three-record scenario. -/
theorem C2_distinct_keys_first_seen_witness :
    (Weekly.keys (Weekly.get_report exampleRecords)
        = firstSeenKeys (Weekly.validKeys exampleRecords)
      ∧ (Weekly.keys (Weekly.get_report exampleRecords)).Nodup)
    ∧ (Daily.keys [⟨"01-10-2024", 1, 1⟩, ⟨"01-17-2024", 1, 0⟩]
        = firstSeenKeys (Daily.validKeys exampleRecords)
      ∧ (Daily.keys [⟨"01-10-2024", 1, 1⟩, ⟨"01-17-2024", 1, 0⟩]).Nodup) := by
  have h := C2_distinct_keys_first_seen exampleRecords
  exact ⟨h.1, h.2 [⟨("01-10-2024"), 1, 1⟩, ⟨("01-17-2024"), 1, 0⟩] rfl⟩

/-- C3: on the input sequence of the spec's end-to-end scenario, the daily
report of src/src/main.rs contains exactly two entries, in order: date key
01-10-2024 with present_count 1 and absent_count 1, then date key 01-17-2024
with present_count 1 and absent_count 0. -/
theorem C3_example_daily_report :
    Daily.get_report exampleRecords
      = Except.ok [⟨"01-10-2024", 1, 1⟩, ⟨"01-17-2024", 1, 0⟩] := rfl

/-- C4 counterexample: the claim that the weekly-report variant groups by ISO
week is false on the two-record input cexRecords.  The records for 2024-01-10
and 2024-01-11 have the same ISO week identifier (week 2 of ISO week-year
2024) and valid dates, yet they are not counted in the same summary entry,
because src/src/main copy.rs keys by the formatted calendar date MM/DD/YYYY
(its ISO-week key is commented out). -/
theorem C4_counterexample :
    parse_from_str cexR1.date = some ⟨2024, 1, 10⟩
    ∧ parse_from_str cexR2.date = some ⟨2024, 1, 11⟩
    ∧ cexR1 ∈ cexRecords ∧ cexR2 ∈ cexRecords
    ∧ isoWeekPair ⟨2024, 1, 10⟩ = isoWeekPair ⟨2024, 1, 11⟩
    ∧ Weekly.inSameEntry cexRecords cexR1 cexR2 = false := by
  refine ⟨by decide, by decide, by decide, by decide, by decide, by decide⟩

/-- C4 amended: in the weekly-report variant, two records with valid dates
appearing in the input are counted in the same summary entry if and only if
their dates render to the same MM/DD/YYYY calendar-date key — grouping is by
calendar date, not by ISO week. -/
theorem C4_amended_same_entry_iff_same_date_key (rs : List Attendance)
    (r1 r2 : Attendance) (d1 d2 : Date)
    (h1 : r1 ∈ rs) (h2 : r2 ∈ rs)
    (hp1 : parse_from_str r1.date = some d1) (hp2 : parse_from_str r2.date = some d2) :
    Weekly.inSameEntry rs r1 r2 = true ↔ formatWeekly d1 = formatWeekly d2 := by
  constructor
  · intro h
    rcases List.any_eq_true.mp h with ⟨e, hmem, he⟩
    simp only [Weekly.keyed, hp1, hp2, Bool.and_eq_true, beq_iff_eq] at he
    exact he.1.symm.trans he.2
  · intro hkey
    have hmemk := Weekly.key_mem_report rs r1 d1 h1 hp1
    simp only [Weekly.keys, List.mem_map] at hmemk
    obtain ⟨e, hemem, hek⟩ := hmemk
    apply List.any_eq_true.mpr
    refine ⟨e, hemem, ?_⟩
    simp [Weekly.keyed, hp1, hp2, hek, hkey]

/-- Witness for the amended C4: a record is counted together with itself. -/
theorem C4_amended_witness :
    Weekly.inSameEntry cexRecords cexR1 cexR1 = true :=
  (C4_amended_same_entry_iff_same_date_key cexRecords cexR1 cexR1
    ⟨2024, 1, 10⟩ ⟨2024, 1, 10⟩ (by decide) (by decide) (by decide) (by decide)).mpr rfl

/-- C5: each variant follows one consistent policy on malformed dates and a
malformed record never contributes to any count: the main.rs report fails the
whole request with an error whenever some record's date does not parse, and
the main copy.rs report equals the report over the input with the malformed
records filtered out (they are excluded from every summary and aggregation
completes normally). -/
theorem C5_malformed_date_policy (rs : List Attendance) :
    ((∃ r ∈ rs, parse_from_str r.date = none) → ∃ e, Daily.get_report rs = Except.error e)
    ∧ Weekly.get_report rs
        = Weekly.get_report (rs.filter (fun r => (parse_from_str r.date).isSome)) := by
  constructor
  · intro h
    exact Daily.go_error_of_bad rs [] h
  · exact (Weekly.go_filter_valid rs []).symm

/-- Witness for C5 at an input containing the malformed date 2024-13-40. -/
theorem C5_malformed_date_policy_witness :
    (∃ e, Daily.get_report badDateRecords = Except.error e)
    ∧ Weekly.get_report badDateRecords
        = Weekly.get_report
            (badDateRecords.filter (fun r => (parse_from_str r.date).isSome)) := by
  have h := C5_malformed_date_policy badDateRecords
  exact ⟨h.1 (by decide), h.2⟩

/-- C6: appending a parse-valid record whose status is neither Present nor
Absent never fails either report: it creates the summary entry for its period
key with both counters zero when no entry for that key exists, and otherwise
leaves the output entirely unchanged; it is never counted in present_count or
absent_count. -/
theorem C6_unknown_status (rs : List Attendance) (r : Attendance) (d : Date)
    (hp : parse_from_str r.date = some d)
    (hpre : ¬ r.status = "Present") (habs : ¬ r.status = "Absent") :
    Daily.get_report (rs ++ [r])
      = Except.map
          (fun out => if formatDaily d ∈ Daily.keys out then out
            else out ++ [⟨formatDaily d, 0, 0⟩])
          (Daily.get_report rs)
    ∧ Weekly.get_report (rs ++ [r])
      = (if formatWeekly d ∈ Weekly.keys (Weekly.get_report rs)
         then Weekly.get_report rs
         else Weekly.get_report rs ++ [⟨formatWeekly d, 0⟩]) := by
  constructor
  · have hsplit := Daily.go_append [r] rs []
    simp only [Daily.get_report]
    rw [hsplit]
    cases h : Daily.go [] rs with
    | error e => rfl
    | ok out =>
      simp only [Daily.go, hp, Except.map]
      rw [Daily.insert_unknown _ _ hpre habs]
  · have hsplit := Weekly.wgo_append [r] rs []
    simp only [Weekly.get_report]
    rw [hsplit]
    simp only [Weekly.go, hp]
    rw [Weekly.winsert_unknown _ _ hpre]

/-- Witness for C6: appending a Late record for 2024-01-10 to the scenario
records. -/
theorem C6_unknown_status_witness :
    Daily.get_report (exampleRecords ++ [lateRecord])
      = Except.map
          (fun out => if formatDaily ⟨2024, 1, 10⟩ ∈ Daily.keys out then out
            else out ++ [⟨formatDaily ⟨2024, 1, 10⟩, 0, 0⟩])
          (Daily.get_report exampleRecords)
    ∧ Weekly.get_report (exampleRecords ++ [lateRecord])
      = (if formatWeekly ⟨2024, 1, 10⟩ ∈ Weekly.keys (Weekly.get_report exampleRecords)
         then Weekly.get_report exampleRecords
         else Weekly.get_report exampleRecords ++ [⟨formatWeekly ⟨2024, 1, 10⟩, 0⟩]) :=
  C6_unknown_status exampleRecords lateRecord ⟨2024, 1, 10⟩ (by decide) (by decide) (by decide)

/-- C7: neither the report nor the export has partial-failure results.  The
main.rs report succeeds exactly when every fetched record's date parses — on
any malformed date it returns an error and no summary list — and the CSV
export always returns the complete document: the header record followed by
one written record for every fetched row. -/
theorem C7_no_partial_results (rs : List Attendance) :
    ((∀ r ∈ rs, (parse_from_str r.date).isSome = true)
      ↔ ∃ out, Daily.get_report rs = Except.ok out)
    ∧ export_csv rs
        = write_record [] [("Student ID"), ("Date"), ("Status")]
          ++ (rs.map
              (fun r => write_record [] [intToString r.student_id, r.date, r.status])).join := by
  refine ⟨⟨fun h => Daily.go_ok_of_valid rs [] h, ?_⟩, export_csv_join rs⟩
  rintro ⟨out, hout⟩ r hmem
  by_contra hbad
  have hnone : parse_from_str r.date = none := by
    cases hx : parse_from_str r.date with
    | none => rfl
    | some d =>
      rw [hx] at hbad
      simp at hbad
  obtain ⟨e, he⟩ := Daily.go_error_of_bad rs [] ⟨r, hmem, hnone⟩
  rw [Daily.get_report, he] at hout
  simp at hout

/-- Witness for C7 at the spec's three-record scenario. -/
theorem C7_no_partial_results_witness :
    ∃ out, Daily.get_report exampleRecords = Except.ok out :=
  (C7_no_partial_results exampleRecords).1.mp (by decide)

/-- C8: for every sequence of n records fetched from the store whose date and
status fields need no CSV quoting, the export document consists of exactly the
header line with the fields Student ID, Date, Status followed by one
newline-terminated line per record carrying that record's student_id, date
and status comma-separated, in store-return order: splitting at newlines
yields the header, the n record lines, and the empty remainder after the
final newline, and the document contains exactly n + 1 newline-terminated
lines (4 lines for three records). -/
theorem C8_csv_shape (rs : List Attendance)
    (h : ∀ r ∈ rs, csvNeedsQuote r.date.data = false ∧ csvNeedsQuote r.status.data = false) :
    splitLines (export_csv rs)
      = ("Student ID,Date,Status").data :: rs.map csvRowChars ++ [[]]
    ∧ (export_csv rs).count ('\n') = rs.length + 1 := by
  have hheader : write_record [] [("Student ID"), ("Date"), ("Status")]
      = ("Student ID,Date,Status").data ++ [('\n')] := by decide
  have hrows : rs.map (fun r => write_record [] [intToString r.student_id, r.date, r.status])
      = rs.map (fun r => csvRowChars r ++ [('\n')]) := by
    apply List.map_congr_left
    intro r hmem
    exact write_record_row r (h r hmem).1 (h r hmem).2
  have hchunks : export_csv rs
      = ((("Student ID,Date,Status").data :: rs.map csvRowChars).map
          (fun c0 => c0 ++ [('\n')])).join := by
    rw [export_csv_join, hheader, hrows]
    simp only [List.map_cons, List.join_cons, List.map_map, List.append_assoc]
    rfl
  have hsafe : ∀ c0 ∈ ("Student ID,Date,Status").data :: rs.map csvRowChars, ('\n') ∉ c0 := by
    intro c0 hc0
    rcases List.mem_cons.mp hc0 with h0 | h0
    · rw [h0]
      decide
    · rcases List.mem_map.mp h0 with ⟨r, hmem, hr⟩
      rw [← hr]
      exact csvRowChars_no_newline r (h r hmem).1 (h r hmem).2
  have hmain : splitLines (export_csv rs)
      = ("Student ID,Date,Status").data :: rs.map csvRowChars ++ [[]] := by
    rw [hchunks]
    exact splitLines_terminated _ hsafe
  refine ⟨hmain, ?_⟩
  have hlen := splitLines_length (export_csv rs)
  rw [hmain] at hlen
  simp only [List.length_append, List.length_cons, List.length_map,
    List.length_singleton, List.length_nil] at hlen
  omega

/-- Witness for C8 at the spec's three-record scenario: 1 header line plus 3
record lines. -/
theorem C8_csv_shape_witness :
    splitLines (export_csv exampleRecords)
      = ("Student ID,Date,Status").data :: exampleRecords.map csvRowChars ++ [[]]
    ∧ (export_csv exampleRecords).count ('\n') = exampleRecords.length + 1 :=
  C8_csv_shape exampleRecords (by decide)

/-- C9: the report aggregation is deterministic — both variants are pure
functions of the fetched record sequence, so running them twice on the same
sequence yields identical entries, counts and order. -/
theorem C9_deterministic (rs : List Attendance) :
    Daily.get_report rs = Daily.get_report rs
    ∧ Weekly.get_report rs = Weekly.get_report rs :=
  ⟨rfl, rfl⟩

/-- C10: the report output does not depend on student identity: two input
sequences whose records agree pairwise on date and status (in the same
order) produce identical reports in both variants, whatever their
student_id fields. -/
theorem C10_student_id_oblivious (rs1 rs2 : List Attendance)
    (h : rs1.map (fun r => (r.date, r.status)) = rs2.map (fun r => (r.date, r.status))) :
    Daily.get_report rs1 = Daily.get_report rs2
    ∧ Weekly.get_report rs1 = Weekly.get_report rs2 :=
  ⟨Daily.go_obs rs1 rs2 [] h, Weekly.wgo_obs rs1 rs2 [] h⟩

/-- Witness for C10: the scenario records with all student identifiers
replaced give the same reports. -/
theorem C10_student_id_oblivious_witness :
    Daily.get_report exampleRecords = Daily.get_report exampleRecordsOtherIds
    ∧ Weekly.get_report exampleRecords = Weekly.get_report exampleRecordsOtherIds :=
  C10_student_id_oblivious exampleRecords exampleRecordsOtherIds (by decide)
